import Mathlib

/-!
# Verification of the jira_stats paginated-retrieval and timeline-reconstruction engine

Shallow embedding of the repository's core algorithms:

* `fetchAllPaginated` (src/index.js, lines 12-62): exhaustive offset-based
  pagination with an `isLast`/total completion test and a 2000-record safety
  ceiling.  The upstream is modelled as a function from the request
  parameters `startAt, maxResults` to either a transport error (`Except.error`)
  or a page.  The `while (!isLast)` loop becomes fuel-indexed structural
  recursion returning `none` when the fuel is exhausted, `some (.error e)`
  when the JS code would `throw`, and `some (.ok (records, warned))` on
  normal completion, where `warned` records whether the
  `console.warn('Hit safety limit of 2000 items')` line was reached.

* the `/api/workflow-analysis` fold (src/server.js, lines 204-312, and its
  older copy src/unnamed/part_000 lines 209-310): per-issue timeline replay
  producing `transitions`, `status_time`, `reopen_patterns` and the
  `bottlenecks` ranking.  Timestamps are rationals measured in hours, so
  `moment(a).diff(b, 'hours', true)` (a fractional-hour difference) becomes
  exact subtraction.  JS objects used as accumulating maps become
  insertion-ordered association lists (`List (String × M)`): updating an
  existing key keeps its position, a new key is appended, exactly the JS
  property-order semantics observed by `Object.keys`.

* the `/api/data-understanding` aggregation (src/server.js, lines 63-122, and
  the older variant src/unnamed/part_000 lines 66-125) for the
  missing-list-defaulting claims.

JS `undefined` is modelled as `Option.none`.  Where the source interpolates a
possibly-undefined value into a template literal or uses it as a property
key, JS coerces `undefined` to the string `"undefined"`; `statusName` mirrors
this coercion.  A JS `TypeError` raised by reading a property of `undefined`
is modelled by an `Option`-valued function returning `none`.
-/

namespace JiraStats

/-! ## Pagination engine (src/index.js) -/

/-- One page of a remote collection, as read from `response.data` in
`fetchAllPaginated`: the code reads `data.values || data.issues || []`,
`data.isLast` and `data.total`; absent JSON fields are `none`. -/
structure Page (α : Type) where
  values : Option (List α)
  issues : Option (List α)
  isLast : Option Bool
  total : Option Nat
deriving DecidableEq

/-- `data.values || data.issues || []` (src/index.js line 37); a present empty
array is truthy in JS, so only an absent field falls through. -/
def pageRecords {α : Type} (p : Page α) : List α :=
  p.values.getD (p.issues.getD [])

/-- The error message built by the `catch` block (src/index.js line 58):
``throw new Error(`Jira API Error at startAt ${startAt}: ${error.message}`)``. -/
def apiErrorMessage (startAt : Nat) (msg : String) : String :=
  "Jira API Error at startAt " ++ toString startAt ++ ": " ++ msg

/-- The upstream: a function from the request parameters (`startAt`,
`maxResults`) to a transport failure or a page. -/
def Server (α : Type) : Type := Nat → Nat → Except String (Page α)

/-- The `while (!isLast)` loop of `fetchAllPaginated` (src/index.js lines
30-60), fuel-indexed.  Each iteration requests `{ startAt, maxResults: 50 }`,
appends the returned records, computes `isLast` (server flag if present,
otherwise the inference `startAt + pageValues.length >= (data.total || 0)`),
advances `startAt` by the number of records actually returned, and applies
the safety break `if (startAt > 2000)`.  The boolean in the result records
whether the safety-ceiling warning was logged. -/
def fetchLoop {α : Type} (server : Server α) :
    Nat → Nat → List α → Option (Except String (List α × Bool))
  | 0, _, _ => none
  | fuel + 1, startAt, results =>
    match server startAt 50 with
    | .error msg => some (.error (apiErrorMessage startAt msg))
    | .ok data =>
      let pageValues := pageRecords data
      let results2 := results ++ pageValues
      let isLast : Bool :=
        match data.isLast with
        | none => decide (data.total.getD 0 ≤ startAt + pageValues.length)
        | some b => b
      let startAt2 := startAt + pageValues.length
      if 2000 < startAt2 then some (.ok (results2, true))
      else if isLast then some (.ok (results2, false))
      else fetchLoop server fuel startAt2 results2

/-- `fetchAllPaginated` (src/index.js lines 12-62): the loop started at
`startAt = 0` with no accumulated records. -/
def fetchAllPaginated {α : Type} (server : Server α) (fuel : Nat) :
    Option (Except String (List α × Bool)) :=
  fetchLoop server fuel 0 []

/-- Modelled from the spec: the same loop with the completion inference taken
literally from the spec's words "infer completion when
`offset + page-size ≥ reported total`", where "page-size" is the requested
fixed page size 50 (the spec's own usage: "requests a fixed page size
(default 50)").  Declared only for comparison with `fetchLoop`, whose
inference uses `pageValues.length`, the number of records actually
returned. -/
def fetchLoopSpecWords {α : Type} (server : Server α) :
    Nat → Nat → List α → Option (Except String (List α × Bool))
  | 0, _, _ => none
  | fuel + 1, startAt, results =>
    match server startAt 50 with
    | .error msg => some (.error (apiErrorMessage startAt msg))
    | .ok data =>
      let pageValues := pageRecords data
      let results2 := results ++ pageValues
      let isLast : Bool :=
        match data.isLast with
        | none => decide (data.total.getD 0 ≤ startAt + 50)
        | some b => b
      let startAt2 := startAt + pageValues.length
      if 2000 < startAt2 then some (.ok (results2, true))
      else if isLast then some (.ok (results2, false))
      else fetchLoopSpecWords server fuel startAt2 results2

/-- Modelled from the spec (see `fetchLoopSpecWords`): spec-worded
`fetchAllPaginated`. -/
def fetchAllPaginatedSpecWords {α : Type} (server : Server α) (fuel : Nat) :
    Option (Except String (List α × Bool)) :=
  fetchLoopSpecWords server fuel 0 []

/-- Record count of a successful traversal result. -/
def resultLength {α : Type} : Option (Except String (List α × Bool)) → Option Nat
  | some (.ok p) => some p.1.length
  | _ => none

/-- A page is "not the last" for the loop: either the server flag says so, or
the flag is absent and the inference `startAt + returned ≥ total` fails at
the offset `n` at which the page was served. -/
def NeverCompletes {α : Type} (server : Server α) : Prop :=
  ∀ n : Nat, ∃ p : Page α, server n 50 = .ok p ∧
    0 < (pageRecords p).length ∧ (pageRecords p).length ≤ 50 ∧
    (p.isLast = some false ∨
      (p.isLast = none ∧ n + (pageRecords p).length < p.total.getD 0))

/-- Mock upstream that never reports completion: every request yields a full
page of 50 records with `isLast: false`. -/
def neverLastServer : Server Nat :=
  fun _ _ => .ok ⟨some (List.replicate 50 0), none, some false, none⟩

/-- Upstream backed by a fixed collection `L`: the request at offset `n`
returns the slice of `L` starting at `n`, of length at most the requested
page size and at most `sz n` (the upstream may return fewer records than
requested), with `total = L.length` and no `isLast` flag. -/
def sliceServer {α : Type} (L : List α) (sz : Nat → Nat) : Server α :=
  fun startAt maxResults =>
    .ok ⟨some ((L.drop startAt).take (min maxResults (sz startAt))), none, none, some L.length⟩

/-- Mock upstream holding 35 records (`0..34`, `total = 35`, no `isLast`)
that returns at most 30 records per page. -/
def shortPageServer : Server Nat := sliceServer (List.range 35) (fun _ => 30)

/-- Mock upstream that serves 30 records at offset 0 and then fails at the
transport level. -/
def failingServer : Server Nat :=
  fun startAt _ =>
    if startAt = 0 then .ok ⟨some (List.replicate 30 7), none, none, some 100⟩
    else .error "socket hang up"

/-- Mock upstream whose response carries neither an `isLast` flag nor a
`total` field. -/
def bareServer : Server Nat :=
  fun _ _ => .ok ⟨some [10, 11, 12], none, none, none⟩

/-! ## Workflow analysis (src/server.js, route 4) -/

/-- One entry of `changeGroup.items`: `{ field, fromString, toString }`;
either rename string may be absent. -/
structure ChangeItem where
  field : String
  fromString : Option String
  toString : Option String
deriving DecidableEq

/-- One changelog history entry: a change group with its timestamp (hours,
exact) and its changed items. -/
structure ChangeGroup where
  created : ℚ
  items : List ChangeItem
deriving DecidableEq

/-- `issue.changelog`: the `histories` list may be absent. -/
structure Changelog where
  histories : Option (List ChangeGroup)
deriving DecidableEq

/-- The issue fields the workflow route touches (`fields: 'created,status'`).
`resolutiondate` is part of the upstream work-item data model (spec §3); the
workflow route neither requests nor reads it, which is exactly what the
timeline-sum claims are about. -/
structure IssueFields where
  created : ℚ
  resolutiondate : Option ℚ
deriving DecidableEq

/-- A work item as consumed by the workflow fold. -/
structure Issue where
  key : String
  fields : IssueFields
  changelog : Option Changelog
deriving DecidableEq

/-- The accumulating report of `/api/workflow-analysis` (src/server.js lines
240-246): `transitions` maps `"from -> to"` strings to counts, `status_time`
maps a status to `(total_hours, occurrences)`, `reopen_patterns` collects
`{ key, pattern }` pairs.  All three JS objects/arrays are modelled with
insertion order preserved. -/
structure Analysis where
  transitions : List (String × Nat)
  status_time : List (String × (ℚ × Nat))
  reopen_patterns : List (String × String)
deriving DecidableEq

/-- The initial `analysis` object (all maps empty). -/
def initAnalysis : Analysis := ⟨[], [], []⟩

/-- The JS idiom `if (!m[k]) m[k] = 0-value; m[k] += v` on an object used as
a map: an existing key is updated in place, a new key is appended (JS
property insertion order). -/
def bumpAdd {M : Type} [Add M] : List (String × M) → String → M → List (String × M)
  | [], k, v => [(k, v)]
  | (k', w) :: t, k, v =>
    if k' = k then (k', w + v) :: t else (k', w) :: bumpAdd t k v

/-- JS coercion applied to `item.fromString` / `item.toString` when the code
interpolates it into a template literal or uses it as a property key:
`String(undefined) = "undefined"`.  (The workflow route has no
`|| 'Unknown'` fallback.) -/
def statusName (o : Option String) : String := o.getD "undefined"

/-- `seenStatuses.add(s)` on a JS `Set`, as an insertion-ordered
duplicate-free list. -/
def addSeen (seen : List String) (s : String) : List String :=
  if s ∈ seen then seen else seen ++ [s]

/-- Per-issue replay cursor (src/server.js lines 253-258) threaded through
the history fold together with the shared `analysis` object. -/
structure ReplaySt where
  analysis : Analysis
  lastTime : ℚ
  currentStatus : String
  seen : List String
deriving DecidableEq

/-- Replace the shared analysis carried by a replay state (proof helper). -/
def setAnalysis (st : ReplaySt) (a : Analysis) : ReplaySt :=
  { st with analysis := a }

/-- The per-issue cursor components of a replay state (proof helper). -/
def cursorsOf (st : ReplaySt) : ℚ × String × List String :=
  (st.lastTime, st.currentStatus, st.seen)

/-- Processing of one `item` of a change group (src/server.js lines 263-289):
only `field === 'status'` items count; the transition counter, the
time-in-`fromStatus` accumulation, the reopen check against `seenStatuses`,
the `seenStatuses` additions and the cursor updates, in source order. -/
def stepItem (key : String) (changeTime : ℚ) (st : ReplaySt) (item : ChangeItem) : ReplaySt :=
  if item.field = "status" then
    let fromStatus := statusName item.fromString
    let toStatus := statusName item.toString
    let transitionKey := fromStatus ++ " -> " ++ toStatus
    let a1 := { st.analysis with
      transitions := bumpAdd st.analysis.transitions transitionKey 1 }
    let durationHours := changeTime - st.lastTime
    let a2 := { a1 with
      status_time := bumpAdd a1.status_time fromStatus (durationHours, 1) }
    let a3 :=
      if toStatus ∈ st.seen then
        { a2 with reopen_patterns :=
            a2.reopen_patterns ++ [(key, fromStatus ++ " -> " ++ toStatus ++ " (Repeated)")] }
      else a2
    { analysis := a3
      lastTime := changeTime
      currentStatus := toStatus
      seen := addSeen (addSeen st.seen fromStatus) toStatus }
  else st

/-- `history.sort((a, b) => new Date(a.created) - new Date(b.created))`
(src/server.js line 257): a stable ascending sort by timestamp. -/
def sortHistory (h : List ChangeGroup) : List ChangeGroup :=
  List.insertionSort (fun a b => a.created ≤ b.created) h

/-- The initial per-issue replay state: `lastTime = created`,
`currentStatus = "Open"`, empty `seenStatuses`, on top of the shared
analysis. -/
def initReplaySt (a : Analysis) (created : ℚ) : ReplaySt :=
  ⟨a, created, "Open", []⟩

/-- The nested `sortedHistory.forEach(changeGroup => changeGroup.items.forEach(...))`
fold of one issue's history (src/server.js lines 260-291), as a state
transformer. -/
def replayFold (key : String) (history : List ChangeGroup) : ReplaySt → ReplaySt :=
  fun st => (sortHistory history).foldl
    (fun st g => g.items.foldl (stepItem key g.created) st) st

/-- The history replay started on the initial per-issue state. -/
def replayHistory (a : Analysis) (key : String) (created : ℚ)
    (history : List ChangeGroup) : ReplaySt :=
  replayFold key history (initReplaySt a created)

/-- Processing of one issue (src/server.js lines 248-299): read
`issue.changelog?.histories || []`, replay the sorted history, then
accumulate `moment().diff(lastTime, 'hours', true)` into the entry for the
current status. -/
def processIssue (now : ℚ) (a : Analysis) (issue : Issue) : Analysis :=
  let history := (issue.changelog.bind Changelog.histories).getD []
  let st := replayHistory a issue.key issue.fields.created history
  let durationCurrent := now - st.lastTime
  { st.analysis with
    status_time := bumpAdd st.analysis.status_time st.currentStatus (durationCurrent, 1) }

/-- The `fullIssues.forEach(...)` aggregate fold (src/server.js line 248). -/
def workflowAnalysis (now : ℚ) (issues : List Issue) : Analysis :=
  issues.foldl (processIssue now) initAnalysis

/-- `Number.prototype.toFixed(1)` followed by `parseFloat`, for the
nonnegative averages produced here: rounding to one decimal place. -/
def toFixed1 (q : ℚ) : ℚ := ((round (10 * q) : ℤ) : ℚ) / 10

/-- `Object.keys(analysis.status_time).map(...)` (src/server.js lines
302-308): one `{ status, avg_hours }` row per status, in key insertion
order. -/
def avgTimes (st : List (String × (ℚ × Nat))) : List (String × ℚ) :=
  st.map (fun e => (e.1, toFixed1 (e.2.1 / (e.2.2 : ℚ))))

/-- `avgTimes.sort((a, b) => parseFloat(b.avg_hours) - parseFloat(a.avg_hours))`
(src/server.js line 310): a stable descending sort by rounded average. -/
def bottlenecks (a : Analysis) : List (String × ℚ) :=
  List.insertionSort (fun x y => y.2 ≤ x.2) (avgTimes a.status_time)

/-- Step 2 of the workflow route (src/server.js lines 222-238): each basic
issue's detail fetch either yields the full issue or fails (`null` after the
inner `catch`); the results are then filtered with `i !== null`.  The detail
fetcher is modelled as a function from the issue key. -/
def fullIssues (detail : String → Option Issue) (keys : List String) : List Issue :=
  ((keys.map detail).filter (fun i => i ≠ none)).reduceOption

/-- The whole workflow pipeline from the key list returned by the search:
detail fetch with per-item recovery, then the aggregate fold. -/
def workflowFromSearch (now : ℚ) (detail : String → Option Issue)
    (keys : List String) : Analysis :=
  workflowAnalysis now (fullIssues detail keys)

/-- Sum of all accumulated `total_hours` in a `status_time` map. -/
def totalHours (a : Analysis) : ℚ :=
  (a.status_time.map (fun e => e.2.1)).sum

/-! ### Concrete workflow inputs used by counterexamples and witnesses -/

/-- A resolved item (`resolutiondate = 5`): created at hour 0, one status
change `Open -> Done` at hour 2. -/
def resolvedIssue : Issue :=
  ⟨"R-1", ⟨0, some 5⟩, some ⟨some [⟨2, [⟨"status", some "Open", some "Done"⟩]⟩]⟩⟩

/-- An item whose single status event has no `fromString`. -/
def missingFromIssue : Issue :=
  ⟨"M-1", ⟨0, none⟩, some ⟨some [⟨2, [⟨"status", none, some "Done"⟩]⟩]⟩⟩

/-- Item X: created at hour 0, one status change `A -> B` at hour 2. -/
def issueX : Issue :=
  ⟨"X-1", ⟨0, none⟩, some ⟨some [⟨2, [⟨"status", some "A", some "B"⟩]⟩]⟩⟩

/-- Item Y: created at hour 0, one status change `C -> D` at hour 2. -/
def issueY : Issue :=
  ⟨"Y-1", ⟨0, none⟩, some ⟨some [⟨2, [⟨"status", some "C", some "D"⟩]⟩]⟩⟩

/-- An item whose detail response has no `changelog` at all. -/
def noChangelogIssue : Issue := ⟨"N-1", ⟨0, none⟩, none⟩

/-- An item whose `changelog` object has no `histories` list. -/
def noHistoriesIssue : Issue := ⟨"H-1", ⟨0, none⟩, some ⟨none⟩⟩

/-- A mock per-item detail fetcher that fails (returns `null`) exactly for
the key `"BAD"` and succeeds with an event-free issue otherwise. -/
def mockDetail : String → Option Issue :=
  fun k => if k = "BAD" then none else some ⟨k, ⟨0, none⟩, none⟩

/-! ## Data understanding (src/server.js route 2 and the legacy variant) -/

/-- An object carrying a `name` (issue type, status, priority). -/
structure NameObj where
  name : Option String
deriving DecidableEq

/-- An assignee object carrying a `displayName`. -/
structure UserObj where
  displayName : Option String
deriving DecidableEq

/-- The fields requested by the data-understanding search. -/
structure DIFields where
  issuetype : Option NameObj
  status : Option NameObj
  priority : Option NameObj
  assignee : Option UserObj
deriving DecidableEq

/-- One raw issue of the search response. -/
structure DIssue where
  key : String
  fields : DIFields
deriving DecidableEq

/-- `response.data` of the search call: the `issues` list may be absent. -/
structure SearchResponse where
  issues : Option (List DIssue)
  total : Option Nat
deriving DecidableEq

/-- The data-understanding report (src/server.js lines 83-98). -/
structure DUAnalysis where
  total_issues_in_batch : Nat
  by_type : List (String × Nat)
  by_status : List (String × Nat)
  by_priority : List (String × Nat)
  by_assignee : List (String × Nat)
  missing_assignee : Nat
  missing_priority : Nat
deriving DecidableEq

/-- The `issues.forEach` grouping body (src/server.js lines 100-114). -/
def duStep (acc : DUAnalysis) (issue : DIssue) : DUAnalysis :=
  let f := issue.fields
  let type := (f.issuetype.bind NameObj.name).getD "Unknown"
  let status := (f.status.bind NameObj.name).getD "Unknown"
  let priority := (f.priority.bind NameObj.name).getD "None"
  let assignee := (f.assignee.bind UserObj.displayName).getD "Unassigned"
  { acc with
    by_type := bumpAdd acc.by_type type 1
    by_status := bumpAdd acc.by_status status 1
    by_priority := bumpAdd acc.by_priority priority 1
    by_assignee := bumpAdd acc.by_assignee assignee 1
    missing_assignee := acc.missing_assignee + (if f.assignee = none then 1 else 0)
    missing_priority := acc.missing_priority + (if f.priority = none then 1 else 0) }

/-- The current data-understanding aggregation (src/server.js lines 81-114):
`const issues = response.data.issues || []`, then the grouping fold.  Total
on every response shape. -/
def dataUnderstanding (r : SearchResponse) : DUAnalysis :=
  let issues := r.issues.getD []
  issues.foldl duStep ⟨issues.length, [], [], [], [], 0, 0⟩

/-- The legacy data-understanding aggregation (src/unnamed/part_000 lines
82-117): `const issues = response.data.issues;` with no default, so an
absent `issues` list makes `issues.length` / `issues.forEach` throw a
`TypeError` — modelled as `none`. -/
def dataUnderstandingLegacy (r : SearchResponse) : Option DUAnalysis :=
  match r.issues with
  | none => none
  | some issues => some (issues.foldl duStep ⟨issues.length, [], [], [], [], 0, 0⟩)

/-! ## Proof helpers for permutation invariance (claim C9) -/

/-- Keys of an association-list map, in insertion order. -/
def keysOf {M : Type} (m : List (String × M)) : List String := m.map Prod.fst

/-- Merge an optional additional contribution into an optional accumulated
map entry; `addO o none = o` and `addO o (some v)` adds `v` onto the entry,
creating it if absent. -/
def addO {M : Type} [AddMonoid M] : Option M → Option M → Option M
  | o, none => o
  | o, some v => some (o.getD 0 + v)

/-- A replay-state transformer whose cursor effect ignores the carried
analysis and whose effect on both accumulating maps is, lookup-wise, the
addition of a contribution that can be read off from a run started on the
empty analysis. -/
def DeltaStep (f : ReplaySt → ReplaySt) : Prop :=
  (∀ st a, cursorsOf (f (setAnalysis st a)) = cursorsOf (f st)) ∧
  (∀ st k, ((f st).analysis.transitions).lookup k
      = addO ((st.analysis.transitions).lookup k)
          (((f (setAnalysis st initAnalysis)).analysis.transitions).lookup k)) ∧
  (∀ st s, ((f st).analysis.status_time).lookup s
      = addO ((st.analysis.status_time).lookup s)
          (((f (setAnalysis st initAnalysis)).analysis.status_time).lookup s))

/-! # Theorems -/

/-! ## Pagination: abort on transport failure (claim C7) -/

/-- C7: a transport-level failure of the page request at offset `startAt`
makes the whole traversal return a single error whose message carries that
offset; the records accumulated so far (`acc`, arbitrary) are discarded. -/
theorem page_failure_aborts_with_offset {α : Type} (server : Server α)
    (fuel startAt : Nat) (acc : List α) (msg : String)
    (h : server startAt 50 = .error msg) :
    fetchLoop server (fuel + 1) startAt acc
      = some (.error (apiErrorMessage startAt msg)) := by
  simp [fetchLoop, h]

/-- C7 witness: `failingServer` serves 30 records at offset 0 and then fails;
from the loop state that has already accumulated those 30 records the
traversal returns only the offset-carrying error. -/
theorem page_failure_aborts_with_offset_witness :
    fetchLoop failingServer 4 30 (List.replicate 30 7)
      = some (.error (apiErrorMessage 30 "socket hang up")) :=
  page_failure_aborts_with_offset failingServer 3 30 (List.replicate 30 7)
    "socket hang up" rfl

/-! ## Pagination: response with neither `isLast` nor `total` (claim C10) -/

/-- C10: if the first page response carries neither an `isLast` flag nor a
`total` field, the fallback reads `data.total || 0` as `0`, the inference
`startAt + pageValues.length >= 0` holds, and the traversal returns exactly
that first page's records (no ceiling warning), regardless of what the
upstream would serve at later offsets. -/
theorem no_isLast_no_total_first_page_only {α : Type} (server : Server α)
    (fuel : Nat) (p : Page α)
    (h0 : server 0 50 = .ok p) (hLast : p.isLast = none) (hTot : p.total = none)
    (hlen : (pageRecords p).length ≤ 2000) :
    fetchAllPaginated server (fuel + 1) = some (.ok (pageRecords p, false)) := by
  simp [fetchAllPaginated, fetchLoop, h0, hLast, hTot]
  omega

/-- C10 witness: `bareServer` answers every request with records
`[10, 11, 12]` and no `isLast`/`total`; the traversal stops after the first
page. -/
theorem no_isLast_no_total_first_page_only_witness :
    fetchAllPaginated bareServer 5 = some (.ok (pageRecords ⟨some [10, 11, 12], none, none, none⟩, false)) :=
  no_isLast_no_total_first_page_only bareServer 4 ⟨some [10, 11, 12], none, none, none⟩
    rfl rfl rfl (by decide)

/-! ## Pagination: safety ceiling (claim C2) -/

/-- Loop invariant for a never-completing upstream: from any offset at most
2000 and enough fuel, the loop terminates via the safety break, logs the
ceiling warning, and the records fetched from that offset on push the offset
strictly past 2000 but at most to 2050. -/
theorem fetchLoop_never_completes {α : Type} (server : Server α)
    (h : NeverCompletes server) :
    ∀ fuel startAt acc, startAt ≤ 2000 → 2001 - startAt ≤ fuel →
      ∃ res : List α,
        fetchLoop server fuel startAt acc = some (.ok (acc ++ res, true)) ∧
        2000 < startAt + res.length ∧ startAt + res.length ≤ 2050 := by
  intro fuel
  induction fuel with
  | zero => intro startAt acc h1 h2; omega
  | succ fuel ih =>
    intro startAt acc h1 h2
    obtain ⟨p, hp, hpos, hle, hnl⟩ := h startAt
    have hLast : (match p.isLast with
        | none => decide (p.total.getD 0 ≤ startAt + (pageRecords p).length)
        | some b => b) = false := by
      rcases hnl with h' | ⟨h', h''⟩
      · rw [h']
      · rw [h']
        simpa using h''
    rcases Nat.lt_or_ge 2000 (startAt + (pageRecords p).length) with hc | hc
    · refine ⟨pageRecords p, ?_, hc, by omega⟩
      simp [fetchLoop, hp, hLast, hc]
    · obtain ⟨res, heq, hb1, hb2⟩ :=
        ih (startAt + (pageRecords p).length) (acc ++ pageRecords p) (by omega) (by omega)
      refine ⟨pageRecords p ++ res, ?_, by simp; omega, by simp; omega⟩
      rw [show acc ++ (pageRecords p ++ res) = (acc ++ pageRecords p) ++ res by simp]
      rw [← heq]
      simp [fetchLoop, hp, hLast]
      omega

/-- C2 (amended): against an upstream that never signals completion (no
`isLast: true`, inference never satisfied, every page nonempty with at most
the requested 50 records), the exhaustive traversal terminates, the
safety-ceiling warning is logged, and the returned record count strictly
exceeds 2000 and is at most 2050 — it is not exactly 2000. -/
theorem pagination_ceiling_overshoot {α : Type} (server : Server α)
    (h : NeverCompletes server) :
    ∃ res : List α,
      fetchAllPaginated server 2001 = some (.ok (res, true)) ∧
      2000 < res.length ∧ res.length ≤ 2050 := by
  obtain ⟨res, heq, hb1, hb2⟩ :=
    fetchLoop_never_completes server h 2001 0 [] (by omega) (by omega)
  exact ⟨res, by simpa [fetchAllPaginated] using heq, by omega, by omega⟩

/-- C2 witness: the mock `neverLastServer` (50 records per page,
`isLast: false` always) satisfies `NeverCompletes`, so the traversal
terminates past the ceiling with the warning logged. -/
theorem pagination_ceiling_overshoot_witness :
    ∃ res : List Nat,
      fetchAllPaginated neverLastServer 2001 = some (.ok (res, true)) ∧
      2000 < res.length ∧ res.length ≤ 2050 :=
  pagination_ceiling_overshoot neverLastServer
    (fun _ => ⟨⟨some (List.replicate 50 0), none, some false, none⟩, rfl,
      by simp [pageRecords], by simp [pageRecords], Or.inl rfl⟩)

set_option maxRecDepth 10000 in
/-- C2 counterexample: against `neverLastServer` the traversal returns 2050
records, not "exactly the configured safety-ceiling count of 2000": the
safety break `if (startAt > 2000)` is strict and tested only after the
offset has been advanced past the 41st full page. -/
theorem pagination_ceiling_exact_2000_counterexample :
    resultLength (fetchAllPaginated neverLastServer 41) = some 2050 ∧
    resultLength (fetchAllPaginated neverLastServer 41) ≠ some 2000 := by
  have h : resultLength (fetchAllPaginated neverLastServer 41) = some 2050 := by rfl
  exact ⟨h, by rw [h]; decide⟩

/-! ## Pagination: exhaustive-mode mechanics (claim C3) -/

/-- Loop invariant for `sliceServer`: from offset `startAt ≤ L.length` the
loop appends exactly the remaining records of `L` and stops, via the
inference `startAt + pageValues.length >= total`, precisely when the
advanced offset reaches `L.length`. -/
theorem fetchLoop_sliceServer {α : Type} (L : List α) (sz : Nat → Nat)
    (hsz : ∀ n, 0 < sz n) (hlen : L.length ≤ 2000) :
    ∀ fuel startAt acc, startAt ≤ L.length → L.length - startAt < fuel →
      fetchLoop (sliceServer L sz) fuel startAt acc
        = some (.ok (acc ++ L.drop startAt, false)) := by
  intro fuel
  induction fuel with
  | zero => intro startAt acc h1 h2; omega
  | succ fuel ih =>
    intro startAt acc h1 h2
    have hplen : (pageRecords (⟨some ((L.drop startAt).take (min 50 (sz startAt))), none,
        none, some L.length⟩ : Page α)).length
        = min (min 50 (sz startAt)) (L.length - startAt) := by
      simp [pageRecords]
    set k := min 50 (sz startAt) with hk
    set page := (L.drop startAt).take k with hpage
    have hlen2 : page.length = min k (L.length - startAt) := by
      simpa using hplen
    have hstep : fetchLoop (sliceServer L sz) (fuel + 1) startAt acc
        = (if 2000 < startAt + page.length then some (.ok (acc ++ page, true))
           else if decide (L.length ≤ startAt + page.length)
             then some (.ok (acc ++ page, false))
           else fetchLoop (sliceServer L sz) fuel (startAt + page.length) (acc ++ page)) := by
      simp only [fetchLoop, sliceServer, pageRecords, Option.getD_some]
    have hle : startAt + page.length ≤ L.length := by omega
    have hceil : ¬ 2000 < startAt + page.length := by omega
    rcases le_or_lt L.length (startAt + page.length) with hdone | hmore
    · have hend : startAt + page.length = L.length := by omega
      have hpageall : page = L.drop startAt := by
        rw [hpage]
        apply List.take_of_length_le
        simp
        omega
      rw [hstep, if_neg hceil, if_pos (by simpa using hdone), hpageall]
    · have hpos : 0 < page.length := by
        have := hsz startAt
        omega
      have hrec := ih (startAt + page.length) (acc ++ page) (by omega) (by omega)
      rw [hstep, if_neg hceil, if_neg (by simpa using Nat.not_le.mpr hmore), hrec]
      have hsplit : page ++ L.drop (startAt + page.length) = L.drop startAt := by
        have h3 : page = (L.drop startAt).take page.length := by
          rw [hpage, List.take_eq_take]
          simp only [hlen2, List.length_drop]
          omega
        calc page ++ L.drop (startAt + page.length)
            = (L.drop startAt).take page.length ++ (L.drop startAt).drop page.length := by
              rw [← h3, List.drop_drop, Nat.add_comm]
          _ = L.drop startAt := List.take_append_drop _ _
      rw [List.append_assoc, hsplit]

/-- C3 (amended): exhaustive mode starts at offset 0 requesting page size 50,
appends each returned page, advances the offset by the number of records
actually returned, and (with `isLast` absent) infers completion from
`offset + records-actually-returned ≥ reported total`: over an upstream
serving arbitrary nonempty slices of a collection `L` (possibly fewer than
the requested 50 records per page) it returns exactly `L`. -/
theorem fetch_slice_server_returns_all {α : Type} (L : List α) (sz : Nat → Nat)
    (hsz : ∀ n, 0 < sz n) (hlen : L.length ≤ 2000) :
    fetchAllPaginated (sliceServer L sz) (L.length + 1) = some (.ok (L, false)) := by
  have h := fetchLoop_sliceServer L sz hsz hlen (L.length + 1) 0 [] (by omega) (by omega)
  simpa [fetchAllPaginated] using h

/-- C3 witness: the collection `[3, 1, 4]` served one record at a time is
returned in full. -/
theorem fetch_slice_server_returns_all_witness :
    fetchAllPaginated (sliceServer [3, 1, 4] (fun _ => 1)) 4 = some (.ok ([3, 1, 4], false)) :=
  fetch_slice_server_returns_all [3, 1, 4] (fun _ => 1) (fun _ => Nat.one_pos) (by decide)

/-- C3 counterexample: completion is not inferred from
`offset + page-size(50) ≥ total`.  Against `shortPageServer` (35 records,
pages of at most 30, no `isLast`) the code fetches a second page and returns
all 35 records, whereas the spec-worded inference would stop after the first
page with 30 records. -/
theorem fetch_inference_pageSize_counterexample :
    resultLength (fetchAllPaginated shortPageServer 10) = some 35 ∧
    resultLength (fetchAllPaginatedSpecWords shortPageServer 10) = some 30 ∧
    resultLength (fetchAllPaginated shortPageServer 10)
      ≠ resultLength (fetchAllPaginatedSpecWords shortPageServer 10) := by
  refine ⟨rfl, rfl, ?_⟩
  intro h
  rw [show resultLength (fetchAllPaginated shortPageServer 10) = some 35 from rfl,
    show resultLength (fetchAllPaginatedSpecWords shortPageServer 10) = some 30 from rfl] at h
  exact absurd h (by decide)

/-! ## Timeline reconstruction: total accumulated time (claim C1) -/

/-- Accumulating `(d, 1)` into a status entry adds exactly `d` to the sum of
all `total_hours`. -/
theorem sum_totalHours_bumpAdd (m : List (String × (ℚ × Nat))) (k : String)
    (d : ℚ) (c : Nat) :
    ((bumpAdd m k (d, c)).map (fun e => e.2.1)).sum
      = (m.map (fun e => e.2.1)).sum + d := by
  induction m with
  | nil => simp [bumpAdd]
  | cons hd tl ih =>
    by_cases h : hd.1 = k
    · simp [bumpAdd, h]
      ring
    · simp [bumpAdd, h, ih]
      ring

/-- One replay step changes the accumulated `total_hours` sum by exactly the
amount the step advances the `lastTime` cursor. -/
theorem stepItem_totalHours (key : String) (t : ℚ) (st : ReplaySt) (item : ChangeItem) :
    totalHours (stepItem key t st item).analysis
      = totalHours st.analysis + ((stepItem key t st item).lastTime - st.lastTime) := by
  unfold stepItem
  by_cases h : item.field = "status"
  · simp only [h, if_true, totalHours, apply_ite Analysis.status_time]
    simp [sum_totalHours_bumpAdd]
  · simp [h]

/-- The items fold of one change group preserves the invariant
`Δ(total_hours sum) = Δ(lastTime)`. -/
theorem foldItems_totalHours (key : String) (t : ℚ) (items : List ChangeItem) :
    ∀ st : ReplaySt,
      totalHours ((items.foldl (stepItem key t) st)).analysis
        = totalHours st.analysis + ((items.foldl (stepItem key t) st).lastTime - st.lastTime) := by
  induction items with
  | nil => intro st; simp
  | cons i tl ih =>
    intro st
    simp only [List.foldl_cons]
    rw [ih (stepItem key t st i), stepItem_totalHours]
    ring

/-- The group fold preserves the invariant `Δ(total_hours sum) = Δ(lastTime)`. -/
theorem foldGroups_totalHours (key : String) (groups : List ChangeGroup) :
    ∀ st : ReplaySt,
      totalHours ((groups.foldl (fun st g => g.items.foldl (stepItem key g.created) st) st)).analysis
        = totalHours st.analysis
          + ((groups.foldl (fun st g => g.items.foldl (stepItem key g.created) st) st).lastTime
            - st.lastTime) := by
  induction groups with
  | nil => intro st; simp
  | cons g tl ih =>
    intro st
    simp only [List.foldl_cons]
    rw [ih (g.items.foldl (stepItem key g.created) st), foldItems_totalHours]
    ring

/-- C1 (amended): processing one work item adds exactly `now − created` to
the sum of all `status_time` durations — the reconstructed timeline covers
the item's entire existence from `created` to `now` (evaluation time) with
no gaps or overlaps, for resolved and unresolved items alike: the workflow
fold closes the final interval with `moment().diff(lastTime)` and never
reads `resolutiondate`. -/
theorem statusTime_sum_eq_now_sub_created (now : ℚ) (a : Analysis) (issue : Issue) :
    totalHours (processIssue now a issue) = totalHours a + (now - issue.fields.created) := by
  unfold processIssue
  simp only [totalHours, sum_totalHours_bumpAdd]
  have h := foldGroups_totalHours issue.key
    (sortHistory ((issue.changelog.bind Changelog.histories).getD []))
    (initReplaySt a issue.fields.created)
  simp only [replayHistory, replayFold, totalHours, initReplaySt] at h ⊢
  rw [h]
  ring

/-! ## Timeline reconstruction: reopen detection (claim C4) -/

/-- C4: a reopen flag is emitted exactly when a status event's `toValue` is
already in the item's seen set, and both `fromValue` and `toValue` are added
to `seen` after each status event (first conjunct, for any single step); in
particular, replaying the sorted events `A→B, B→C, C→B` of one item emits
exactly one reopen flag — on the third event, since `B` was already seen —
and leaves `seen = {A, B, C}` (second conjunct). -/
theorem reopen_flag_characterization (A B C key : String)
    (hAB : A ≠ B) (hBC : B ≠ C) (hAC : A ≠ C) :
    (∀ (k : String) (t : ℚ) (st : ReplaySt) (item : ChangeItem),
        item.field = "status" →
        (stepItem k t st item).analysis.reopen_patterns
            = st.analysis.reopen_patterns ++
              (if statusName item.toString ∈ st.seen
               then [(k, statusName item.fromString ++ " -> "
                      ++ statusName item.toString ++ " (Repeated)")]
               else []) ∧
        (stepItem k t st item).seen
            = addSeen (addSeen st.seen (statusName item.fromString))
                (statusName item.toString)) ∧
    ((replayHistory initAnalysis key 0
        [⟨1, [⟨"status", some A, some B⟩]⟩,
         ⟨2, [⟨"status", some B, some C⟩]⟩,
         ⟨3, [⟨"status", some C, some B⟩]⟩]).analysis.reopen_patterns
        = [(key, C ++ " -> " ++ B ++ " (Repeated)")] ∧
      (replayHistory initAnalysis key 0
        [⟨1, [⟨"status", some A, some B⟩]⟩,
         ⟨2, [⟨"status", some B, some C⟩]⟩,
         ⟨3, [⟨"status", some C, some B⟩]⟩]).seen = [A, B, C]) := by
  constructor
  · intro k t st item hf
    constructor
    · by_cases hm : statusName item.toString ∈ st.seen <;>
        simp [stepItem, hf, hm, apply_ite Analysis.reopen_patterns]
    · simp [stepItem, hf]
  · have hsorted : sortHistory
        [⟨1, [⟨"status", some A, some B⟩]⟩,
         ⟨2, [⟨"status", some B, some C⟩]⟩,
         ⟨3, [⟨"status", some C, some B⟩]⟩]
        = [⟨1, [⟨"status", some A, some B⟩]⟩,
           ⟨2, [⟨"status", some B, some C⟩]⟩,
           ⟨3, [⟨"status", some C, some B⟩]⟩] := by
      apply List.Sorted.insertionSort_eq
      simp [List.sorted_cons]
      norm_num
    unfold replayHistory replayFold
    rw [hsorted]
    simp [initReplaySt, initAnalysis, stepItem, statusName, addSeen,
      Ne.symm hAB, Ne.symm hBC, Ne.symm hAC,
      apply_ite Analysis.reopen_patterns]

/-- C4 witness: the characterization instantiated at the distinct statuses
`"A"`, `"B"`, `"C"`. -/
theorem reopen_flag_characterization_witness :
    (∀ (k : String) (t : ℚ) (st : ReplaySt) (item : ChangeItem),
        item.field = "status" →
        (stepItem k t st item).analysis.reopen_patterns
            = st.analysis.reopen_patterns ++
              (if statusName item.toString ∈ st.seen
               then [(k, statusName item.fromString ++ " -> "
                      ++ statusName item.toString ++ " (Repeated)")]
               else []) ∧
        (stepItem k t st item).seen
            = addSeen (addSeen st.seen (statusName item.fromString))
                (statusName item.toString)) ∧
    ((replayHistory initAnalysis "K-1" 0
        [⟨1, [⟨"status", some "A", some "B"⟩]⟩,
         ⟨2, [⟨"status", some "B", some "C"⟩]⟩,
         ⟨3, [⟨"status", some "C", some "B"⟩]⟩]).analysis.reopen_patterns
        = [("K-1", "C" ++ " -> " ++ "B" ++ " (Repeated)")] ∧
      (replayHistory initAnalysis "K-1" 0
        [⟨1, [⟨"status", some "A", some "B"⟩]⟩,
         ⟨2, [⟨"status", some "B", some "C"⟩]⟩,
         ⟨3, [⟨"status", some "C", some "B"⟩]⟩]).seen = ["A", "B", "C"]) :=
  reopen_flag_characterization "A" "B" "C" "K-1" (by decide) (by decide) (by decide)

/-! ## Timeline reconstruction: missing status names (claim C5) -/

/-- C5 (amended): a status event with a missing `fromString` or `toString`
behaves exactly as if the missing value were the status name `"undefined"`
(the JS string coercion of `undefined`), not `"Unknown"`: the transition
key, the `status_time` accumulation, the reopen pattern and the seen set
are all routed through that name. -/
theorem missing_status_rendered_undefined (k : String) (t : ℚ)
    (st : ReplaySt) (item : ChangeItem) :
    (item.fromString = none →
      stepItem k t st item = stepItem k t st { item with fromString := some "undefined" }) ∧
    (item.toString = none →
      stepItem k t st item = stepItem k t st { item with toString := some "undefined" }) := by
  constructor <;> intro h <;> simp [stepItem, statusName, h]

/-- C5 witness: both replacements at a concrete all-missing status event. -/
theorem missing_status_rendered_undefined_witness :
    (stepItem "K-2" 1 (initReplaySt initAnalysis 0) ⟨"status", none, none⟩
      = stepItem "K-2" 1 (initReplaySt initAnalysis 0) ⟨"status", some "undefined", none⟩) ∧
    (stepItem "K-2" 1 (initReplaySt initAnalysis 0) ⟨"status", none, none⟩
      = stepItem "K-2" 1 (initReplaySt initAnalysis 0) ⟨"status", none, some "undefined"⟩) :=
  ⟨(missing_status_rendered_undefined "K-2" 1 (initReplaySt initAnalysis 0)
      ⟨"status", none, none⟩).1 rfl,
   (missing_status_rendered_undefined "K-2" 1 (initReplaySt initAnalysis 0)
      ⟨"status", none, none⟩).2 rfl⟩

/-- C5 counterexample: for an item whose status event has no `fromString`,
the transition is keyed `"undefined -> Done"` and the time is accumulated
under status `"undefined"`; no `"Unknown"` key is produced anywhere. -/
theorem missing_status_unknown_counterexample :
    (processIssue 10 initAnalysis missingFromIssue).transitions.lookup "undefined -> Done"
        = some 1 ∧
    (processIssue 10 initAnalysis missingFromIssue).transitions.lookup "Unknown -> Done"
        = none ∧
    "undefined" ∈ keysOf (processIssue 10 initAnalysis missingFromIssue).status_time ∧
    "Unknown" ∉ keysOf (processIssue 10 initAnalysis missingFromIssue).status_time := by
  decide

/-! ## Defensive defaults for missing lists (claim C6) -/

/-- C6 (amended): in the current server (src/server.js, the Docker
entrypoint) a missing `issues` list and a missing `changelog` /
`changelog.histories` list each default to the empty list and the
aggregation proceeds; this equates each defaulted run with the run on an
explicit empty list. -/
theorem defaults_missing_lists_total :
    (∀ r : SearchResponse, r.issues = none →
        dataUnderstanding r = dataUnderstanding { r with issues := some [] }) ∧
    (∀ (now : ℚ) (a : Analysis) (issue : Issue), issue.changelog = none →
        processIssue now a issue
          = processIssue now a { issue with changelog := some ⟨some []⟩ }) ∧
    (∀ (now : ℚ) (a : Analysis) (issue : Issue), issue.changelog = some ⟨none⟩ →
        processIssue now a issue
          = processIssue now a { issue with changelog := some ⟨some []⟩ }) := by
  refine ⟨fun r h => ?_, fun now a issue h => ?_, fun now a issue h => ?_⟩
  · simp [dataUnderstanding, h]
  · simp [processIssue, replayHistory, h]
  · simp [processIssue, replayHistory, h]

/-- C6 witness: the defaults at concrete inputs. -/
theorem defaults_missing_lists_total_witness :
    (dataUnderstanding ⟨none, none⟩ = dataUnderstanding ⟨some [], none⟩) ∧
    (processIssue 0 initAnalysis noChangelogIssue
      = processIssue 0 initAnalysis { noChangelogIssue with changelog := some ⟨some []⟩ }) ∧
    (processIssue 0 initAnalysis noHistoriesIssue
      = processIssue 0 initAnalysis { noHistoriesIssue with changelog := some ⟨some []⟩ }) :=
  ⟨defaults_missing_lists_total.1 ⟨none, none⟩ rfl,
   defaults_missing_lists_total.2.1 0 initAnalysis noChangelogIssue rfl,
   defaults_missing_lists_total.2.2 0 initAnalysis noHistoriesIssue rfl⟩

/-- C6 counterexample: the repository also ships the legacy variant
(src/unnamed/part_000), whose data-understanding route reads
`response.data.issues` without a default; on a response with no `issues`
list it raises (modelled as `none`) instead of proceeding, while the current
aggregation proceeds on the same input. -/
theorem legacy_missing_issues_raises :
    dataUnderstandingLegacy ⟨none, none⟩ = none ∧
    dataUnderstanding ⟨none, none⟩ = ⟨0, [], [], [], [], 0, 0⟩ := by
  exact ⟨rfl, rfl⟩

/-! ## Per-item detail-fetch failure recovery (claim C8) -/

/-- The map-to-null-then-filter pipeline keeps exactly the successfully
fetched issues, in order. -/
theorem fullIssues_eq_filterMap (detail : String → Option Issue) (keys : List String) :
    fullIssues detail keys = keys.filterMap detail := by
  induction keys with
  | nil => rfl
  | cons k t ih =>
    cases h : detail k <;>
      simp [fullIssues, List.filter_cons, h, List.reduceOption_cons_of_some] <;>
      simpa [fullIssues] using ih

/-- C8: one failing per-item detail fetch (`detail kbad = none`, mapped to
null, filtered out before aggregation) does not abort the batch: the
aggregate report equals the fold over all remaining items' fetched details,
so every other item's result is still included. -/
theorem detail_failure_drops_item_only (now : ℚ) (detail : String → Option Issue)
    (ks1 ks2 : List String) (kbad : String) (hbad : detail kbad = none) :
    workflowFromSearch now detail (ks1 ++ kbad :: ks2)
      = workflowAnalysis now (ks1.filterMap detail ++ ks2.filterMap detail) := by
  unfold workflowFromSearch
  rw [fullIssues_eq_filterMap]
  simp [List.filterMap_append, List.filterMap_cons, hbad]

/-- C8 witness: with `mockDetail` failing exactly on `"BAD"`, the batch
`["G-1", "BAD", "G-2"]` aggregates the details of `"G-1"` and `"G-2"`. -/
theorem detail_failure_drops_item_only_witness :
    workflowFromSearch 0 mockDetail (["G-1"] ++ "BAD" :: ["G-2"])
      = workflowAnalysis 0
          (["G-1"].filterMap mockDetail ++ ["G-2"].filterMap mockDetail) :=
  detail_failure_drops_item_only 0 mockDetail ["G-1"] ["G-2"] "BAD" (by decide)

/-- C1 counterexample: for the resolved item `resolvedIssue`
(`created = 0`, `resolutiondate = 5`, evaluated at `now = 10`) the
reconstructed durations sum to `now − created = 10`, not
`resolutiondate − created = 5`: the claim's "resolutiondate for resolved
items" does not hold on the code. -/
theorem statusTime_sum_resolved_counterexample :
    totalHours (processIssue 10 initAnalysis resolvedIssue) = 10 ∧
    resolvedIssue.fields.resolutiondate = some 5 ∧
    (10 : ℚ) ≠ 5 - 0 := by
  refine ⟨?_, rfl, by norm_num⟩
  rw [statusTime_sum_eq_now_sub_created]
  simp [totalHours, initAnalysis, resolvedIssue]

/-! ## Aggregate fold order-independence (claim C9): map lemmas -/

/-- `addO` with no accumulated entry is the contribution itself. -/
theorem addO_none_left {M : Type} [AddMonoid M] (p : Option M) : addO none p = p := by
  cases p <;> simp [addO]

/-- `addO` with no contribution is the accumulated entry (definitional). -/
theorem addO_none_right {M : Type} [AddMonoid M] (o : Option M) : addO o none = o := rfl

/-- `addO` is associative. -/
theorem addO_assoc {M : Type} [AddMonoid M] (x y z : Option M) :
    addO (addO x y) z = addO x (addO y z) := by
  cases y <;> cases z <;> simp [addO, add_assoc]

/-- Entry values add under `addO`. -/
theorem getD_addO {M : Type} [AddMonoid M] (o p : Option M) :
    (addO o p).getD 0 = o.getD 0 + p.getD 0 := by
  cases p <;> simp [addO]

/-- An `addO` result is present iff either side is. -/
theorem isSome_addO {M : Type} [AddMonoid M] (o p : Option M) :
    (addO o p).isSome = (o.isSome || p.isSome) := by
  cases p <;> simp [addO]

/-- Lookup in the empty association list. -/
theorem lookup_nil {M : Type} (s : String) :
    List.lookup s ([] : List (String × M)) = none := rfl

/-- Lookup in a cons cell, with the key test as a propositional `if`. -/
theorem lookup_cons_eq {M : Type} (k' : String) (w : M) (tl : List (String × M)) (s : String) :
    List.lookup s ((k', w) :: tl) = if s = k' then some w else List.lookup s tl := by
  by_cases h : s = k'
  · subst h
    simp [List.lookup]
  · have hb : (s == k') = false := by
      simpa using h
    simp [List.lookup, hb, h]

/-- Lookup after a `bumpAdd` is the old lookup `addO`-merged with the lookup
in the singleton map `[(k, v)]`. -/
theorem lookup_bumpAdd {M : Type} [AddMonoid M] (m : List (String × M)) (k : String) (v : M) :
    ∀ s, (bumpAdd m k v).lookup s = addO (m.lookup s) ([(k, v)].lookup s) := by
  induction m with
  | nil =>
    intro s
    simp only [bumpAdd]
    rw [lookup_nil, addO_none_left]
  | cons hd tl ih =>
    intro s
    obtain ⟨k', w⟩ := hd
    by_cases hk : k' = k
    · subst hk
      simp only [show bumpAdd ((k', w) :: tl) k' v = (k', w + v) :: tl from by
          simp [bumpAdd], lookup_cons_eq]
      by_cases hs : s = k' <;> simp [hs, addO, lookup_nil]
    · simp only [show bumpAdd ((k', w) :: tl) k v = (k', w) :: bumpAdd tl k v from by
          simp [bumpAdd, hk], lookup_cons_eq]
      by_cases hs : s = k'
      · have hsk : s ≠ k := fun h => hk (hs.symm.trans h)
        simp [hs, hsk, addO, lookup_nil, hk]
      · simp [hs, ih s, lookup_cons_eq]

/-- Keys after a `bumpAdd`: unchanged for an existing key, the new key
appended otherwise. -/
theorem keysOf_bumpAdd {M : Type} [Add M] (m : List (String × M)) (k : String) (v : M) :
    keysOf (bumpAdd m k v)
      = if k ∈ keysOf m then keysOf m else keysOf m ++ [k] := by
  induction m with
  | nil => simp [bumpAdd, keysOf]
  | cons hd tl ih =>
    by_cases hk : hd.1 = k
    · simp [bumpAdd, hk, keysOf]
    · have hkk : ¬ k = hd.1 := fun h => hk h.symm
      rw [show bumpAdd (hd :: tl) k v = hd :: bumpAdd tl k v from by
        obtain ⟨k', w⟩ := hd
        simp [bumpAdd]
        intro h
        exact absurd h hk]
      simp only [keysOf, List.map_cons] at ih ⊢
      rw [ih]
      by_cases hm : k ∈ List.map Prod.fst tl
      · simp [hm, hkk]
      · simp [hm, hkk]

/-- `bumpAdd` preserves key distinctness. -/
theorem nodup_keys_bumpAdd {M : Type} [Add M] (m : List (String × M)) (k : String) (v : M)
    (h : (keysOf m).Nodup) : (keysOf (bumpAdd m k v)).Nodup := by
  rw [keysOf_bumpAdd]
  by_cases hm : k ∈ keysOf m
  · simpa [hm] using h
  · simp [hm, List.nodup_append, h]

/-- A key has an entry iff it is among the map's keys. -/
theorem isSome_lookup_iff_mem_keys {M : Type} (m : List (String × M)) (k : String) :
    (m.lookup k).isSome = true ↔ k ∈ keysOf m := by
  induction m with
  | nil => simp [lookup_nil, keysOf]
  | cons hd tl ih =>
    obtain ⟨k', w⟩ := hd
    by_cases hs : k = k'
    · simp [lookup_cons_eq, hs, keysOf]
    · simp only [lookup_cons_eq, if_neg hs, keysOf, List.map_cons, List.mem_cons]
      rw [show (k ∈ List.map Prod.fst tl) = (k ∈ keysOf tl) from rfl, ← ih]
      simp [hs]

/-- Two optional entries with the same presence and the same defaulted value
are equal. -/
theorem option_ext_getD {M : Type} [AddMonoid M] (o p : Option M)
    (h1 : o.isSome = p.isSome) (h2 : o.getD 0 = p.getD 0) : o = p := by
  cases o <;> cases p <;> simp_all

/-- In a map with distinct keys, membership of a pair is exactly a
successful lookup. -/
theorem mem_iff_lookup_eq_some {M : Type} (m : List (String × M)) :
    (keysOf m).Nodup → ∀ (k : String) (v : M),
    ((k, v) ∈ m ↔ m.lookup k = some v) := by
  induction m with
  | nil =>
    intro _ k v
    simp [lookup_nil]
  | cons hd tl ih =>
    intro h k v
    obtain ⟨k', w⟩ := hd
    have h1 : (keysOf tl).Nodup := by
      rw [keysOf, List.map_cons, List.nodup_cons] at h
      exact h.2
    have hnm : k' ∉ keysOf tl := by
      rw [keysOf, List.map_cons, List.nodup_cons] at h
      exact h.1
    by_cases hs : k = k'
    · subst hs
      rw [lookup_cons_eq, if_pos rfl]
      constructor
      · intro hmem0
        rcases List.mem_cons.mp hmem0 with hhd | hmem
        · simp_all
        · exact absurd (by simpa [keysOf] using List.mem_map_of_mem Prod.fst hmem) hnm
      · intro hl
        simp at hl
        simp [hl]
    · have hne : ¬ (k, v) = (k', w) := fun h' => hs (congrArg Prod.fst h')
      rw [lookup_cons_eq, if_neg hs]
      simp only [List.mem_cons]
      rw [ih h1 k v]
      simp [hne]

/-- Two distinct-key maps with identical lookups are permutations of each
other. -/
theorem perm_of_lookup_eq {M : Type} (m₁ m₂ : List (String × M))
    (h1 : (keysOf m₁).Nodup) (h2 : (keysOf m₂).Nodup)
    (h : ∀ k, m₁.lookup k = m₂.lookup k) : m₁.Perm m₂ := by
  rw [List.perm_ext_iff_of_nodup (List.Nodup.of_map _ h1) (List.Nodup.of_map _ h2)]
  rintro ⟨k, v⟩
  rw [mem_iff_lookup_eq_some m₁ h1 k v, mem_iff_lookup_eq_some m₂ h2 k v, h k]

/-! ## Aggregate fold order-independence (claim C9): delta steps -/

/-- Substituting the same analysis into two cursor-equal states yields equal
states. -/
theorem setAnalysis_eq_of_cursors (x y : ReplaySt) (a : Analysis)
    (h : cursorsOf x = cursorsOf y) : setAnalysis x a = setAnalysis y a := by
  cases x
  cases y
  simp [cursorsOf] at h
  simp [setAnalysis, h.1, h.2.1, h.2.2]

/-- Substituting a state's own analysis changes nothing. -/
theorem setAnalysis_self (st : ReplaySt) : setAnalysis st st.analysis = st := rfl

/-- The identity transformer is a delta step. -/
theorem deltaStep_id : DeltaStep (fun st => st) := by
  refine ⟨fun st a => rfl, fun st k => ?_, fun st s => ?_⟩ <;>
    simp [setAnalysis, initAnalysis, lookup_nil, addO_none_right]

/-- Delta steps compose. -/
theorem deltaStep_comp {f g : ReplaySt → ReplaySt}
    (hf : DeltaStep f) (hg : DeltaStep g) : DeltaStep (fun st => g (f st)) := by
  obtain ⟨hfc, hft, hfs⟩ := hf
  obtain ⟨hgc, hgt, hgs⟩ := hg
  have hfcur : ∀ x y, cursorsOf x = cursorsOf y → cursorsOf (f x) = cursorsOf (f y) := by
    intro x y h
    have h1 : setAnalysis x y.analysis = y := by
      rw [setAnalysis_eq_of_cursors x y _ h, setAnalysis_self]
    rw [← h1]
    exact (hfc x y.analysis).symm
  have hgcur : ∀ x y, cursorsOf x = cursorsOf y → cursorsOf (g x) = cursorsOf (g y) := by
    intro x y h
    have h1 : setAnalysis x y.analysis = y := by
      rw [setAnalysis_eq_of_cursors x y _ h, setAnalysis_self]
    rw [← h1]
    exact (hgc x y.analysis).symm
  refine ⟨fun st a => hgcur _ _ (hfc st a), fun st k => ?_, fun st s => ?_⟩
  · have hstate : setAnalysis (f (setAnalysis st initAnalysis)) initAnalysis
        = setAnalysis (f st) initAnalysis :=
      setAnalysis_eq_of_cursors _ _ _ (hfc st initAnalysis)
    rw [hgt (f st) k, hft st k, hgt (f (setAnalysis st initAnalysis)) k, hstate, addO_assoc]
  · have hstate : setAnalysis (f (setAnalysis st initAnalysis)) initAnalysis
        = setAnalysis (f st) initAnalysis :=
      setAnalysis_eq_of_cursors _ _ _ (hfc st initAnalysis)
    rw [hgs (f st) s, hfs st s, hgs (f (setAnalysis st initAnalysis)) s, hstate, addO_assoc]

/-- A pointwise delta-step family folds to a delta step. -/
theorem deltaStep_foldl {β : Type} (step : ReplaySt → β → ReplaySt)
    (hs : ∀ b, DeltaStep (fun st => step st b)) :
    ∀ xs : List β, DeltaStep (fun st => xs.foldl step st) := by
  intro xs
  induction xs with
  | nil => exact deltaStep_id
  | cons x tl ih => exact deltaStep_comp (hs x) ih

/-- A single `stepItem` is a delta step: its cursor effect ignores the
carried analysis, and its map effect is one `bumpAdd` on each map. -/
theorem deltaStep_stepItem (key : String) (t : ℚ) (item : ChangeItem) :
    DeltaStep (fun st => stepItem key t st item) := by
  by_cases hf : item.field = "status"
  · refine ⟨fun st a => ?_, fun st k => ?_, fun st s => ?_⟩
    · simp [stepItem, hf, cursorsOf, setAnalysis]
    · simp only [stepItem, hf, if_true, setAnalysis, apply_ite Analysis.transitions]
      simp [lookup_bumpAdd, initAnalysis, bumpAdd, lookup_nil, addO_none_left]
    · simp only [stepItem, hf, if_true, setAnalysis, apply_ite Analysis.status_time]
      simp [lookup_bumpAdd, initAnalysis, bumpAdd, lookup_nil, addO_none_left]
  · have h0 : (fun st => stepItem key t st item) = (fun st => st) := by
      funext st
      simp [stepItem, hf]
    rw [h0]
    exact deltaStep_id

/-- The whole per-issue history replay is a delta step. -/
theorem deltaStep_replay (key : String) (history : List ChangeGroup) :
    DeltaStep (replayFold key history) := by
  unfold replayFold
  exact deltaStep_foldl (fun st g => g.items.foldl (stepItem key g.created) st)
    (fun g => deltaStep_foldl (stepItem key g.created)
      (fun item => deltaStep_stepItem key g.created item) g.items)
    (sortHistory history)

/-- Per-issue transition-count contribution: processing one issue merges,
lookup-wise, the contribution of a run from the empty analysis. -/
theorem processIssue_lookup_transitions (now : ℚ) (a : Analysis) (issue : Issue) (k : String) :
    (processIssue now a issue).transitions.lookup k
      = addO (a.transitions.lookup k)
          ((processIssue now initAnalysis issue).transitions.lookup k) := by
  obtain ⟨hc, ht, hsl⟩ :=
    deltaStep_replay issue.key ((issue.changelog.bind Changelog.histories).getD [])
  exact ht (initReplaySt a issue.fields.created) k

/-- Per-issue `status_time` contribution: processing one issue merges,
lookup-wise, the contribution of a run from the empty analysis. -/
theorem processIssue_lookup_status_time (now : ℚ) (a : Analysis) (issue : Issue) (s : String) :
    (processIssue now a issue).status_time.lookup s
      = addO (a.status_time.lookup s)
          ((processIssue now initAnalysis issue).status_time.lookup s) := by
  obtain ⟨hc, ht, hsl⟩ :=
    deltaStep_replay issue.key ((issue.changelog.bind Changelog.histories).getD [])
  have hcur : cursorsOf (replayFold issue.key
        ((issue.changelog.bind Changelog.histories).getD [])
        (initReplaySt a issue.fields.created))
      = cursorsOf (replayFold issue.key
        ((issue.changelog.bind Changelog.histories).getD [])
        (initReplaySt initAnalysis issue.fields.created)) :=
    hc (initReplaySt initAnalysis issue.fields.created) a
  have hlt := congrArg (fun p => p.1) hcur
  have hcs := congrArg (fun p => p.2.1) hcur
  simp only [cursorsOf] at hlt hcs
  have hstep : (processIssue now a issue).status_time
      = bumpAdd (replayHistory a issue.key issue.fields.created
            ((issue.changelog.bind Changelog.histories).getD [])).analysis.status_time
          (replayHistory a issue.key issue.fields.created
            ((issue.changelog.bind Changelog.histories).getD [])).currentStatus
          (now - (replayHistory a issue.key issue.fields.created
            ((issue.changelog.bind Changelog.histories).getD [])).lastTime, 1) := rfl
  have hstep0 : (processIssue now initAnalysis issue).status_time
      = bumpAdd (replayHistory initAnalysis issue.key issue.fields.created
            ((issue.changelog.bind Changelog.histories).getD [])).analysis.status_time
          (replayHistory initAnalysis issue.key issue.fields.created
            ((issue.changelog.bind Changelog.histories).getD [])).currentStatus
          (now - (replayHistory initAnalysis issue.key issue.fields.created
            ((issue.changelog.bind Changelog.histories).getD [])).lastTime, 1) := rfl
  rw [hstep, hstep0, lookup_bumpAdd, lookup_bumpAdd]
  rw [show (replayHistory a issue.key issue.fields.created
        ((issue.changelog.bind Changelog.histories).getD [])).analysis.status_time.lookup s
      = addO (a.status_time.lookup s)
          ((replayHistory initAnalysis issue.key issue.fields.created
            ((issue.changelog.bind Changelog.histories).getD [])).analysis.status_time.lookup s)
    from hsl (initReplaySt a issue.fields.created) s]
  rw [show (replayHistory a issue.key issue.fields.created
        ((issue.changelog.bind Changelog.histories).getD [])).currentStatus
      = (replayHistory initAnalysis issue.key issue.fields.created
        ((issue.changelog.bind Changelog.histories).getD [])).currentStatus from hcs]
  rw [show (replayHistory a issue.key issue.fields.created
        ((issue.changelog.bind Changelog.histories).getD [])).lastTime
      = (replayHistory initAnalysis issue.key issue.fields.created
        ((issue.changelog.bind Changelog.histories).getD [])).lastTime from hlt]
  rw [addO_assoc]

/-! ## Aggregate fold order-independence (claim C9): the issue fold -/

/-- Defaulted transition count over the issue fold: the initial count plus
the sum of per-issue contributions. -/
theorem foldl_getD_transitions (now : ℚ) (k : String) :
    ∀ (l : List Issue) (a : Analysis),
      ((l.foldl (processIssue now) a).transitions.lookup k).getD 0
        = ((a.transitions.lookup k).getD 0)
          + (l.map (fun i => ((processIssue now initAnalysis i).transitions.lookup k).getD 0)).sum := by
  intro l
  induction l with
  | nil => intro a; simp
  | cons i tl ih =>
    intro a
    simp only [List.foldl_cons, List.map_cons, List.sum_cons]
    rw [ih (processIssue now a i), processIssue_lookup_transitions, getD_addO, add_assoc]

/-- Defaulted `status_time` entry over the issue fold: the initial entry
plus the sum of per-issue contributions (componentwise on
`(total_hours, occurrences)`). -/
theorem foldl_getD_status_time (now : ℚ) (s : String) :
    ∀ (l : List Issue) (a : Analysis),
      ((l.foldl (processIssue now) a).status_time.lookup s).getD 0
        = ((a.status_time.lookup s).getD 0)
          + (l.map (fun i => ((processIssue now initAnalysis i).status_time.lookup s).getD 0)).sum := by
  intro l
  induction l with
  | nil => intro a; simp
  | cons i tl ih =>
    intro a
    simp only [List.foldl_cons, List.map_cons, List.sum_cons]
    rw [ih (processIssue now a i), processIssue_lookup_status_time, getD_addO, add_assoc]

/-- Presence of a transition count over the issue fold. -/
theorem foldl_isSome_transitions (now : ℚ) (k : String) :
    ∀ (l : List Issue) (a : Analysis),
      ((l.foldl (processIssue now) a).transitions.lookup k).isSome
        = ((a.transitions.lookup k).isSome
          || l.any (fun i => ((processIssue now initAnalysis i).transitions.lookup k).isSome)) := by
  intro l
  induction l with
  | nil => intro a; simp
  | cons i tl ih =>
    intro a
    simp only [List.foldl_cons, List.any_cons]
    rw [ih (processIssue now a i), processIssue_lookup_transitions, isSome_addO, Bool.or_assoc]

/-- Presence of a `status_time` entry over the issue fold. -/
theorem foldl_isSome_status_time (now : ℚ) (s : String) :
    ∀ (l : List Issue) (a : Analysis),
      ((l.foldl (processIssue now) a).status_time.lookup s).isSome
        = ((a.status_time.lookup s).isSome
          || l.any (fun i => ((processIssue now initAnalysis i).status_time.lookup s).isSome)) := by
  intro l
  induction l with
  | nil => intro a; simp
  | cons i tl ih =>
    intro a
    simp only [List.foldl_cons, List.any_cons]
    rw [ih (processIssue now a i), processIssue_lookup_status_time, isSome_addO, Bool.or_assoc]

/-- `List.any` is invariant under permutation. -/
theorem perm_any_eq {β : Type} {l₁ l₂ : List β} (h : l₁.Perm l₂) (p : β → Bool) :
    l₁.any p = l₂.any p := by
  cases h1 : l₁.any p <;> cases h2 : l₂.any p
  · rfl
  · rw [List.any_eq_true] at h2
    obtain ⟨x, hx, hpx⟩ := h2
    have hx1 : l₁.any p = true := List.any_eq_true.mpr ⟨x, h.symm.mem_iff.mp hx, hpx⟩
    rw [h1] at hx1
    exact hx1
  · rw [List.any_eq_true] at h1
    obtain ⟨x, hx, hpx⟩ := h1
    have hx2 : l₂.any p = true := List.any_eq_true.mpr ⟨x, h.mem_iff.mp hx, hpx⟩
    rw [h2] at hx2
    exact hx2.symm
  · rfl

/-- Transition-count lookups of the aggregate report are invariant under
permutation of the processed items. -/
theorem workflow_transitions_lookup_perm (now : ℚ) {l₁ l₂ : List Issue}
    (h : l₁.Perm l₂) (k : String) :
    (workflowAnalysis now l₁).transitions.lookup k
      = (workflowAnalysis now l₂).transitions.lookup k := by
  apply option_ext_getD
  · unfold workflowAnalysis
    rw [foldl_isSome_transitions, foldl_isSome_transitions]
    rw [perm_any_eq h]
  · unfold workflowAnalysis
    rw [foldl_getD_transitions, foldl_getD_transitions]
    rw [List.Perm.sum_eq (List.Perm.map _ h)]

/-- `status_time` lookups of the aggregate report are invariant under
permutation of the processed items. -/
theorem workflow_status_time_lookup_perm (now : ℚ) {l₁ l₂ : List Issue}
    (h : l₁.Perm l₂) (s : String) :
    (workflowAnalysis now l₁).status_time.lookup s
      = (workflowAnalysis now l₂).status_time.lookup s := by
  apply option_ext_getD
  · unfold workflowAnalysis
    rw [foldl_isSome_status_time, foldl_isSome_status_time]
    rw [perm_any_eq h]
  · unfold workflowAnalysis
    rw [foldl_getD_status_time, foldl_getD_status_time]
    rw [List.Perm.sum_eq (List.Perm.map _ h)]

/-! ## Aggregate fold order-independence (claim C9): distinct keys -/

/-- A single replay step keeps `status_time` keys distinct. -/
theorem nodup_status_keys_stepItem (key : String) (t : ℚ) (st : ReplaySt) (item : ChangeItem)
    (h : (keysOf st.analysis.status_time).Nodup) :
    (keysOf (stepItem key t st item).analysis.status_time).Nodup := by
  by_cases hf : item.field = "status"
  · simp only [stepItem, hf, if_true, apply_ite Analysis.status_time]
    split <;> exact nodup_keys_bumpAdd _ _ _ h
  · simpa [stepItem, hf] using h

/-- A fold of steps preserving a state predicate preserves it. -/
theorem foldl_preserve {β : Type} (P : ReplaySt → Prop) (step : ReplaySt → β → ReplaySt)
    (hstep : ∀ st b, P st → P (step st b)) :
    ∀ (xs : List β) (st : ReplaySt), P st → P (xs.foldl step st) := by
  intro xs
  induction xs with
  | nil => intro st h; exact h
  | cons x tl ih => intro st h; exact ih (step st x) (hstep st x h)

/-- Processing an issue keeps `status_time` keys distinct. -/
theorem nodup_status_keys_processIssue (now : ℚ) (a : Analysis) (issue : Issue)
    (h : (keysOf a.status_time).Nodup) :
    (keysOf (processIssue now a issue).status_time).Nodup := by
  have hrepl : (keysOf (replayHistory a issue.key issue.fields.created
      ((issue.changelog.bind Changelog.histories).getD [])).analysis.status_time).Nodup := by
    unfold replayHistory replayFold
    refine foldl_preserve (fun st => (keysOf st.analysis.status_time).Nodup) _ ?_ _ _ h
    intro st g hst
    exact foldl_preserve (fun st => (keysOf st.analysis.status_time).Nodup) _
      (fun st item hst => nodup_status_keys_stepItem issue.key g.created st item hst)
      g.items st hst
  exact nodup_keys_bumpAdd _ _ _ hrepl

/-- The aggregate report's `status_time` keys are distinct. -/
theorem nodup_status_keys_workflow (now : ℚ) (l : List Issue) :
    (keysOf (workflowAnalysis now l).status_time).Nodup := by
  unfold workflowAnalysis
  have hgen : ∀ (l : List Issue) (a : Analysis), (keysOf a.status_time).Nodup →
      (keysOf (l.foldl (processIssue now) a).status_time).Nodup := by
    intro l
    induction l with
    | nil => intro a h; exact h
    | cons i tl ih => intro a h; exact ih _ (nodup_status_keys_processIssue now a i h)
  exact hgen l initAnalysis (by simp [initAnalysis, keysOf])

/-! ## Aggregate fold order-independence (claim C9): the bottleneck sort -/

/-- Two permuted lists, both sorted by weakly decreasing key, with pairwise
distinct keys, are equal. -/
theorem sorted_desc_perm_eq {α : Type} (f : α → ℚ) :
    ∀ (l₁ l₂ : List α), l₁.Perm l₂ →
      l₁.Sorted (fun x y => f y ≤ f x) → l₂.Sorted (fun x y => f y ≤ f x) →
      l₁.Pairwise (fun x y => f x ≠ f y) → l₁ = l₂ := by
  intro l₁
  induction l₁ with
  | nil =>
    intro l₂ h _ _ _
    exact h.nil_eq
  | cons a t ih =>
    intro l₂ h hs1 hs2 hp
    cases l₂ with
    | nil =>
      have h0 := h.eq_nil
      exact absurd h0 (by simp)
    | cons b t₂ =>
      have hab : a = b := by
        by_contra hne
        have ha2 : a ∈ b :: t₂ := h.mem_iff.mp (List.mem_cons_self a t)
        have hat2 : a ∈ t₂ := by
          rcases List.mem_cons.mp ha2 with h' | h'
          · exact absurd h' hne
          · exact h'
        have hb1 : b ∈ a :: t := h.symm.mem_iff.mp (List.mem_cons_self b t₂)
        have hbt : b ∈ t := by
          rcases List.mem_cons.mp hb1 with h' | h'
          · exact absurd h'.symm hne
          · exact h'
        have h1 : f a ≤ f b := (List.sorted_cons.mp hs2).1 a hat2
        have h2 : f b ≤ f a := (List.sorted_cons.mp hs1).1 b hbt
        exact (List.pairwise_cons.mp hp).1 b hbt (le_antisymm h1 h2)
      subst hab
      rw [ih t₂ h.cons_inv (List.sorted_cons.mp hs1).2 (List.sorted_cons.mp hs2).2
        (List.pairwise_cons.mp hp).2]

/-- C9 (amended): the aggregate fold is order-independent up to bottleneck
tie order.  For permuted item lists the final transition counts and the
`status_time` totals/occurrences agree (as maps), and the bottleneck
rankings — both sorted by weakly decreasing rounded average — are
permutations of each other; when the rounded averages are pairwise distinct
the rankings are identical.  (Tied rounded averages may appear in either
order, since the stable sort falls back to the key insertion order of the
fold.) -/
theorem aggregate_fold_order_independent (now : ℚ) (l₁ l₂ : List Issue) (h : l₁.Perm l₂) :
    (∀ k, (workflowAnalysis now l₁).transitions.lookup k
        = (workflowAnalysis now l₂).transitions.lookup k) ∧
    (∀ s, (workflowAnalysis now l₁).status_time.lookup s
        = (workflowAnalysis now l₂).status_time.lookup s) ∧
    (bottlenecks (workflowAnalysis now l₁)).Perm (bottlenecks (workflowAnalysis now l₂)) ∧
    ((avgTimes (workflowAnalysis now l₁).status_time).Pairwise (fun x y => x.2 ≠ y.2) →
      bottlenecks (workflowAnalysis now l₁) = bottlenecks (workflowAnalysis now l₂)) := by
  have htrans := fun k => workflow_transitions_lookup_perm now h k
  have hstat := fun s => workflow_status_time_lookup_perm now h s
  have hperm_st : (workflowAnalysis now l₁).status_time.Perm
      (workflowAnalysis now l₂).status_time :=
    perm_of_lookup_eq _ _ (nodup_status_keys_workflow now l₁)
      (nodup_status_keys_workflow now l₂) hstat
  have havg : (avgTimes (workflowAnalysis now l₁).status_time).Perm
      (avgTimes (workflowAnalysis now l₂).status_time) := List.Perm.map _ hperm_st
  have hbot : (bottlenecks (workflowAnalysis now l₁)).Perm
      (bottlenecks (workflowAnalysis now l₂)) := by
    unfold bottlenecks
    exact (List.perm_insertionSort _ _).trans (havg.trans (List.perm_insertionSort _ _).symm)
  refine ⟨htrans, hstat, hbot, ?_⟩
  intro hdist
  haveI : IsTotal (String × ℚ) (fun x y => y.2 ≤ x.2) := ⟨fun a b => le_total b.2 a.2⟩
  haveI : IsTrans (String × ℚ) (fun x y => y.2 ≤ x.2) :=
    ⟨fun a b c h1 h2 => le_trans h2 h1⟩
  apply sorted_desc_perm_eq (fun e : String × ℚ => e.2) _ _ hbot
  · exact List.sorted_insertionSort _ _
  · exact List.sorted_insertionSort _ _
  · exact (List.Perm.pairwise_iff (fun hxy => Ne.symm hxy)
      (List.perm_insertionSort _ _)).mpr hdist

/-- C9 witness: the order-independence theorem applied to the concrete
swapped batches `[issueX, issueY]` and `[issueY, issueX]`. -/
theorem aggregate_fold_order_independent_witness :
    (∀ k, (workflowAnalysis 4 [issueX, issueY]).transitions.lookup k
        = (workflowAnalysis 4 [issueY, issueX]).transitions.lookup k) ∧
    (∀ s, (workflowAnalysis 4 [issueX, issueY]).status_time.lookup s
        = (workflowAnalysis 4 [issueY, issueX]).status_time.lookup s) ∧
    (bottlenecks (workflowAnalysis 4 [issueX, issueY])).Perm
      (bottlenecks (workflowAnalysis 4 [issueY, issueX])) ∧
    ((avgTimes (workflowAnalysis 4 [issueX, issueY]).status_time).Pairwise
        (fun x y => x.2 ≠ y.2) →
      bottlenecks (workflowAnalysis 4 [issueX, issueY])
        = bottlenecks (workflowAnalysis 4 [issueY, issueX])) :=
  aggregate_fold_order_independent 4 [issueX, issueY] [issueY, issueX]
    (List.Perm.swap issueY issueX [])

/-- C9 counterexample: the bottleneck ranking is not identical for permuted
batches.  `issueX` spends 2 hours in each of `A`, `B` and `issueY` 2 hours in
each of `C`, `D` (all rounded averages tie at 2.0); folding `[X, Y]` ranks
`A, B, C, D` while folding `[Y, X]` ranks `C, D, A, B` — the stable sort
keeps tied entries in key insertion order, which depends on fold order. -/
theorem bottleneck_tie_order_counterexample :
    ([issueX, issueY] : List Issue).Perm [issueY, issueX] ∧
    bottlenecks (workflowAnalysis 4 [issueX, issueY])
      ≠ bottlenecks (workflowAnalysis 4 [issueY, issueX]) := by
  constructor
  · exact List.Perm.swap issueY issueX []
  · have h1 : bottlenecks (workflowAnalysis 4 [issueX, issueY])
        = [("A", toFixed1 2), ("B", toFixed1 2), ("C", toFixed1 2), ("D", toFixed1 2)] := by
      simp [bottlenecks, avgTimes, workflowAnalysis, processIssue, replayHistory, replayFold,
        sortHistory, initReplaySt, initAnalysis, stepItem, statusName, addSeen, bumpAdd,
        issueX, issueY, List.insertionSort, List.orderedInsert,
        show (4 : ℚ) - 2 = 2 from by norm_num]
    have h2 : bottlenecks (workflowAnalysis 4 [issueY, issueX])
        = [("C", toFixed1 2), ("D", toFixed1 2), ("A", toFixed1 2), ("B", toFixed1 2)] := by
      simp [bottlenecks, avgTimes, workflowAnalysis, processIssue, replayHistory, replayFold,
        sortHistory, initReplaySt, initAnalysis, stepItem, statusName, addSeen, bumpAdd,
        issueX, issueY, List.insertionSort, List.orderedInsert,
        show (4 : ℚ) - 2 = 2 from by norm_num]
    rw [h1, h2]
    decide

end JiraStats
